import Mathlib

/-!
Verification development for the RAGflow ingestion/deletion reconciliation core
(`src/pdf_reader/pdf_reader.py` and `src/pdf_reader/helpers.py`).

Strings of the Python source (object keys, etags, marker paths) are embedded as
`List Char`, written `Str`; Python `str` operations used by the source
(`startswith`, slicing after a prefix, `rsplit(".", 2)`, `replace("\\", "/")`,
f-string concatenation) are translated to the corresponding list operations.

The object store (one MinIO bucket holding both source objects and zero-byte
marker objects) is a single list of named objects in listing order; the message
bus is the list of successfully published events.  The external collaborators
(MinIO, RabbitMQ, the PDF extractor) are represented by an `Env` of outcome
oracles: for each operation the oracle decides whether the corresponding
library call raises, matching the `try`/`except` structure of the source.
-/

namespace RagFlow

abbrev Str := List Char

/-- The literal `"done"` used by the marker codec. -/
def doneChars : Str := "done".toList

/-- `helpers.marker_key`: `safe_key = obj_key.replace("\\", "/")` — a one-character
substring replace, i.e. a character map. -/
def normalizeKey (k : Str) : Str := k.map (fun c => if c = '\\' then '/' else c)

/-- `helpers.marker_key(processed_prefix, obj_key, etag)`:
`f"{processed_prefix}/{safe_key}.{etag}.done"`. -/
def marker_key (pfx k etag : Str) : Str :=
  pfx ++ ['/'] ++ normalizeKey k ++ ['.'] ++ etag ++ ['.'] ++ doneChars

/-- Python `str.split(".")` on a character list. -/
def splitOnDot : Str → List Str
  | [] => [[]]
  | c :: cs =>
    if c = '.' then [] :: splitOnDot cs
    else
      match splitOnDot cs with
      | [] => [[c]]
      | p :: ps => (c :: p) :: ps

/-- Python `".".join(parts)` on character lists. -/
def joinDot : List Str → Str
  | [] => []
  | [x] => x
  | x :: y :: t => x ++ '.' :: joinDot (y :: t)

/-- `helpers.parse_marker(processed_prefix, marker_path)`.
Checks `marker_path.startswith(processed_prefix + "/")`, drops the prefix,
then performs `tail.rsplit(".", 2)`; unpacking into three names raises
`ValueError` (here: `none`) when the tail holds fewer than two dots, and the
third segment must be the literal `"done"`. `rsplit(".", 2)` with at least two
dots present returns the join of all but the last two dot-separated segments,
then the last two segments. -/
def parse_marker (pfx path : Str) : Option (Str × Str) :=
  if (pfx ++ ['/']).isPrefixOf path then
    let tail := path.drop (pfx.length + 1)
    match (splitOnDot tail).reverse with
    | d :: e :: r :: rs =>
      if d = doneChars then some (joinDot (r :: rs).reverse, e) else none
    | _ => none
  else none

/-- An object in the bucket: its key (`object_name`) and its `etag`
(content version).  Marker objects are zero-byte objects whose etag is
irrelevant to the source logic. -/
structure MObj where
  name : Str
  etag : Str
deriving DecidableEq, Repr

/-- The two event kinds published by the service. -/
inductive EvKind
  | ingest
  | deletion
deriving DecidableEq, Repr

/-- A message successfully published to RabbitMQ, reduced to the fields the
claims speak about: `source.object`, `source.etag`, and the message id. -/
structure Event where
  kind : EvKind
  key : Str
  etag : Str
  messageId : Str
deriving DecidableEq, Repr

/-- Observable state: the bucket (source objects and markers, in listing
order), the events confirmed on the bus, and the failure-log lines. -/
structure St where
  bucket : List MObj
  events : List Event
  failLog : List Str
deriving DecidableEq, Repr

/-- Outcome oracles for the external collaborators.  Each field answers
"does this library call raise?" for the operation named: download after the
bounded retries (`fetch_with_retry`), `extract_text_from_pdf`, `publish`
(per event kind / key / etag), `write_processed_marker`'s `put_object`,
`stat_object` (an injected `S3Error` code overriding the honest answer),
per-marker `remove_object`, and the sibling `list_objects` call of the
deletion sweep (keyed by the resolved source key). -/
structure Env where
  fetchErr : Str → Bool
  extractErr : Str → Bool
  pubErr : EvKind → Str → Str → Bool
  markErr : Str → Bool
  statErr : Str → Option Str
  removeErr : Str → Bool
  listErr : Str → Bool

def noSuchKey : Str := "NoSuchKey".toList

/-- The `S3Error` codes `scan_deletions` accepts as "the object is gone". -/
def notFoundCodes : List Str :=
  ["NoSuchKey".toList, "NoSuchObject".toList, "NoSuchBucket".toList]

def findObj (st : St) (name : Str) : Option MObj :=
  st.bucket.find? (fun o => o.name == name)

/-- `client.stat_object(bucket, name)`: an injected error wins; otherwise the
call answers from the bucket, raising `S3Error("NoSuchKey")` when absent. -/
def statObject (env : Env) (st : St) (name : Str) : Except Str MObj :=
  match env.statErr name with
  | some c => .error c
  | none =>
    match findObj st name with
    | some o => .ok o
    | none => .error noSuchKey

/-- `helpers.is_already_processed`: `stat_object` on the marker path; `True`
on success, `False` on any `S3Error` whatsoever. -/
def is_already_processed (env : Env) (st : St) (pfx : Str) (obj : MObj) : Bool :=
  match statObject env st (marker_key pfx obj.name obj.etag) with
  | .ok _ => true
  | .error _ => false

/-- The ingest payload fields the claims are about; `message_id=obj.etag`. -/
def ingestEvent (obj : MObj) : Event :=
  ⟨.ingest, obj.name, obj.etag, obj.etag⟩

/-- The deletion message of `scan_deletions`; `message_id=f"del-{etag}"`. -/
def deletionEvent (key etag : Str) : Event :=
  ⟨.deletion, key, etag, "del-".toList ++ etag⟩

/-- `helpers.write_processed_marker`: `put_object` of a zero-byte object at
the marker path.  Overwriting an existing identical zero-byte marker leaves
the bucket unchanged. -/
def writeMarker (pfx : Str) (st : St) (obj : MObj) : St :=
  if st.bucket.any (fun o => o.name == marker_key pfx obj.name obj.etag) then st
  else { st with bucket := st.bucket ++ [⟨marker_key pfx obj.name obj.etag, []⟩] }

/-- `PDFReader.process_object` (pdf_reader.py:157-214).  Download and
extraction failures re-raise (`.error`).  The publish/mark block sits under
`try ... except Exception: logging.exception(...)` with **no** re-raise: the
bare `except Exception` precedes (and therefore shadows) the AMQP-specific
handler that would re-raise, so a publish or marker-write failure is swallowed
and the function returns normally.  The marker write happens only after the
publish succeeded.  (As the source stands, every `publish(...)` call also
raises `TypeError` — four positional arguments against five required
parameters of `helpers.publish` — which the same bare `except` swallows;
an environment with `pubErr` constantly `true` is the faithful
instantiation of that slip.) -/
def process_object (pfx : Str) (env : Env) (st : St) (obj : MObj) : Except Str St :=
  if env.fetchErr obj.name then .error ("download".toList)
  else if env.extractErr obj.name then .error ("extract".toList)
  else if env.pubErr .ingest obj.name obj.etag then .ok st
  else if env.markErr (marker_key pfx obj.name obj.etag) then
    .ok { st with events := st.events ++ [ingestEvent obj] }
  else .ok (writeMarker pfx { st with events := st.events ++ [ingestEvent obj] } obj)

/-- Result of one reconciler pass: final state and `processed_count`. -/
structure PassResult where
  st : St
  processedCount : Nat
deriving DecidableEq, Repr

/-- One iteration of the loop of `PDFReader.process_bucket` (lines 238-251):
skip when a marker exists, otherwise run `process_object`; an exception from
`process_object` appends the key to the failure log and the pass continues. -/
def bucketStep (pfx : Str) (env : Env) (acc : PassResult) (obj : MObj) : PassResult :=
  if is_already_processed env acc.st pfx obj then acc
  else
    match process_object pfx env acc.st obj with
    | .ok st' => ⟨st', acc.processedCount + 1⟩
    | .error _ =>
      ⟨{ acc.st with failLog := acc.st.failLog ++ [obj.name] }, acc.processedCount⟩

/-- `PDFReader._list_source_objects`: all bucket objects whose name does not
start with `processed_prefix + "/"`. -/
def listSourceObjects (pfx : Str) (st : St) : List MObj :=
  st.bucket.filter (fun o => !((pfx ++ ['/']).isPrefixOf o.name))

/-- The retry-mode candidate build of `process_bucket` (line 227):
`[self.client.stat_object(self.bucket, k) for k in keys]` — stats run left to
right before any processing; the first raising stat propagates. -/
def statKeys (env : Env) (st : St) : List Str → Except Str (List MObj)
  | [] => .ok []
  | k :: ks =>
    match statObject env st k with
    | .error e => .error e
    | .ok o =>
      match statKeys env st ks with
      | .error e => .error e
      | .ok os => .ok (o :: os)

/-- `PDFReader.process_bucket(failed_log_path, retry_file)` (lines 219-253)
with a failure-log path always supplied (the CLI default).  `retryKeys` is
the list of stripped, non-blank lines of the retry file when one is given. -/
def process_bucket (pfx : Str) (env : Env) (st : St) (retryKeys : Option (List Str)) :
    Except Str PassResult :=
  match retryKeys with
  | some keys =>
    match statKeys env st keys with
    | .error e => .error e
    | .ok objs => .ok (objs.foldl (bucketStep pfx env) ⟨st, 0⟩)
  | none => .ok ((listSourceObjects pfx st).foldl (bucketStep pfx env) ⟨st, 0⟩)

/-- Accumulator of `PDFReader.scan_deletions`: evolving state, the
`removed_count`, and the `published_keys` set. -/
structure SweepAcc where
  st : St
  removed : Nat
  publishedKeys : List Str
deriving DecidableEq, Repr

/-- `scan_deletions`' source-existence check (lines 294-306): `missing` is set
only when `stat_object` raised an `S3Error` whose code is one of
`NoSuchKey`/`NoSuchObject`/`NoSuchBucket`; any other error is logged and
leaves `missing` false. -/
def sourceMissing (env : Env) (st : St) (key : Str) : Bool :=
  match statObject env st key with
  | .ok _ => false
  | .error c => notFoundCodes.contains c

/-- The sibling listing of `scan_deletions` (lines 332-334):
`list_objects(bucket, prefix=prefix_for_key, recursive=False)` — objects whose
name starts with the prefix and whose remainder holds no further `/`. -/
def listSiblings (st : St) (pfk : Str) : List MObj :=
  st.bucket.filter (fun o =>
    pfk.isPrefixOf o.name && !((o.name.drop pfk.length).contains '/'))

/-- Removal of one sibling (lines 335-343): skip names that do not start with
`prefix_for_key + "."`; a raising `remove_object` is logged and skipped,
otherwise the object is removed and `removed_count` incremented. -/
def removeSibling (env : Env) (pfk : Str) (acc : St × Nat) (sib : MObj) : St × Nat :=
  if !((pfk ++ ['.']).isPrefixOf sib.name) then acc
  else if env.removeErr sib.name then acc
  else
    ({ acc.1 with bucket := acc.1.bucket.filter (fun o => !(o.name == sib.name)) },
     acc.2 + 1)

/-- The resolution of one missing key after its deletion event was confirmed
(lines 327-348 of `scan_deletions`): append the event, enumerate and remove
the siblings under `f"{processed_prefix}/{src_key}"`, and record the key as
resolved.  The key is recorded even when the sibling listing raised. -/
def resolveKey (pfx : Str) (env : Env) (acc : SweepAcc) (srcKey etag : Str) : SweepAcc :=
  let st1 : St := { acc.st with events := acc.st.events ++ [deletionEvent srcKey etag] }
  let pfk := pfx ++ ['/'] ++ srcKey
  if env.listErr srcKey then
    { st := st1, removed := acc.removed, publishedKeys := acc.publishedKeys ++ [srcKey] }
  else
    let r := (listSiblings st1 pfk).foldl (removeSibling env pfk) (st1, acc.removed)
    { st := r.1, removed := r.2, publishedKeys := acc.publishedKeys ++ [srcKey] }

/-- One iteration of the marker loop of `scan_deletions` (lines 280-348):
decode the marker (malformed: skip); skip keys already resolved; check the
source; on a confirmed missing source publish the deletion event (a publish
failure skips the key, removing nothing); then resolve the key. -/
def sweepStep (pfx : Str) (env : Env) (acc : SweepAcc) (markerPath : Str) : SweepAcc :=
  match parse_marker pfx markerPath with
  | none => acc
  | some (srcKey, etag) =>
    if acc.publishedKeys.contains srcKey then acc
    else if !(sourceMissing env acc.st srcKey) then acc
    else if env.pubErr .deletion srcKey etag then acc
    else resolveKey pfx env acc srcKey etag

/-- The marker snapshot of `scan_deletions` (lines 269-273):
`list_objects(bucket, prefix=processed_prefix + "/", recursive=True)`. -/
def markerNames (pfx : Str) (st : St) : List Str :=
  (st.bucket.filter (fun o => (pfx ++ ['/']).isPrefixOf o.name)).map (fun o => o.name)

/-- `PDFReader.scan_deletions` (lines 266-351): snapshot the marker listing
once, then run the marker loop. -/
def scan_deletions (pfx : Str) (env : Env) (st : St) : SweepAcc :=
  (markerNames pfx st).foldl (sweepStep pfx env) ⟨st, 0, []⟩

/-- An environment in which no external call fails.  For this source no
publish can actually succeed — every `publish(...)` call raises `TypeError`
(see `envPubFail`) — so `okEnv` is used only on paths that never consult the
publish oracle: skips of already-marked candidates and retry-mode stat
failures. -/
def okEnv : Env where
  fetchErr := fun _ => false
  extractErr := fun _ => false
  pubErr := fun _ _ _ => false
  markErr := fun _ => false
  statErr := fun _ => none
  removeErr := fun _ => false
  listErr := fun _ => false

/-- `name` is a decodable marker belonging to key `k`. -/
def isMarkerOfB (pfx k name : Str) : Bool :=
  match parse_marker pfx name with
  | some pr => pr.1 == k
  | none => false

/-- No external call of `process_object` fails for this object: its pass
iteration ends with a written marker. -/
def goodObj (env : Env) (pfx : Str) (obj : MObj) : Bool :=
  !(env.fetchErr obj.name) && !(env.extractErr obj.name) &&
    !(env.pubErr .ingest obj.name obj.etag) &&
    !(env.markErr (marker_key pfx obj.name obj.etag))

/-- Python `needle in hay` (substring containment). -/
def hasSub (needle hay : Str) : Bool :=
  (List.range (hay.length + 1)).any (fun i => needle.isPrefixOf (hay.drop i))

/-! Concrete scenario data used by the claim theorems and witnesses. -/

def slashDotDot : Str := "/..".toList

def pfxP : Str := ['p']

def kDoc1 : Str := "doc1".toList

def eTag1 : Str := "etag1".toList

def objDoc1 : MObj := ⟨kDoc1, eTag1⟩

def stDoc1 : St := ⟨[objDoc1], [], []⟩

/-- Every publish attempt fails.  This is the faithful environment for the
source as written: both `publish(...)` call sites of `pdf_reader.py` pass
four positional arguments to `helpers.publish`, whose signature
`publish(connection, channel, exchange, routing_key, msg, message_id=None)`
requires five, so every call raises `TypeError` before reaching the broker. -/
def envPubFail : Env :=
  { okEnv with pubErr := fun _ _ _ => true }

def kK : Str := ['k']

def mKv1 : MObj := ⟨"p/k.v1.done".toList, []⟩

def mKv2 : MObj := ⟨"p/k.v2.done".toList, []⟩

def mKv3 : MObj := ⟨"p/k.v3.done".toList, []⟩

def bucketC4 : List MObj := [mKv1, mKv2, mKv3]

def kAB : Str := "a/b".toList

def kABdotC : Str := "a/b.c".toList

def mABC : MObj := ⟨"p/a/b.c.v2.done".toList, []⟩

def mAB : MObj := ⟨"p/a/b.v1.done".toList, []⟩

def bucketC5 : List MObj := [mABC, mAB]

def srcABC : MObj := ⟨kABdotC, ['e']⟩

def bucketC6 : List MObj := [srcABC, mABC, mAB]

def mJunk : MObj := ⟨"p/doc1.junk".toList, []⟩

def mDoc1v1 : MObj := ⟨"p/doc1.v1.done".toList, []⟩

def bucketC8 : List MObj := [mJunk, mDoc1v1]

def markerDoc1Name : Str := "p/doc1.etag1.done".toList

def mMarkerDoc1 : MObj := ⟨markerDoc1Name, []⟩

def bucketC9 : List MObj := [objDoc1, mMarkerDoc1]

/-- The faithful environment (every publish attempt raises, as in the
source) with an additional injected `S3Error("AccessDenied")` from
`stat_object` on doc1's marker path — an ambiguous storage error whose code
is not a not-found code. -/
def envC9f : Env :=
  { envPubFail with
    statErr := fun n => if n == markerDoc1Name then some ("AccessDenied".toList) else none }

def kMissing : Str := "missing".toList

/-! ### Lemmas about the marker codec -/

theorem splitOnDot_ne_nil (s : Str) : splitOnDot s ≠ [] := by
  match s with
  | [] => simp [splitOnDot]
  | c :: cs =>
    simp only [splitOnDot]
    split
    · simp
    · cases h : splitOnDot cs <;> simp

theorem splitOnDot_append_dot (a b : Str) :
    splitOnDot (a ++ '.' :: b) = splitOnDot a ++ splitOnDot b := by
  induction a with
  | nil => simp [splitOnDot]
  | cons c cs ih =>
    by_cases hc : c = '.'
    · subst hc
      simp [splitOnDot, ih]
    · simp only [List.cons_append, splitOnDot, if_neg hc, List.append_eq]
      rw [ih]
      cases h : splitOnDot cs with
      | nil => exact absurd h (splitOnDot_ne_nil cs)
      | cons p ps => simp

theorem splitOnDot_no_dot (s : Str) (h : '.' ∉ s) : splitOnDot s = [s] := by
  induction s with
  | nil => rfl
  | cons c cs ih =>
    have hc : c ≠ '.' := fun hh => h (hh ▸ List.mem_cons_self c cs)
    have hcs : '.' ∉ cs := fun hh => h (List.mem_cons_of_mem c hh)
    simp [splitOnDot, if_neg hc, ih hcs]

theorem joinDot_splitOnDot (s : Str) : joinDot (splitOnDot s) = s := by
  induction s with
  | nil => rfl
  | cons c cs ih =>
    by_cases hc : c = '.'
    · subst hc
      simp only [splitOnDot, if_pos rfl]
      cases h : splitOnDot cs with
      | nil => exact absurd h (splitOnDot_ne_nil cs)
      | cons p ps =>
        rw [h] at ih
        simpa [joinDot] using ih
    · simp only [splitOnDot, if_neg hc]
      cases h : splitOnDot cs with
      | nil => exact absurd h (splitOnDot_ne_nil cs)
      | cons p ps =>
        rw [h] at ih
        cases ps with
        | nil => simpa [joinDot] using congrArg (c :: ·) ih
        | cons q qs => simpa [joinDot] using congrArg (c :: ·) ih

theorem joinDot_cons_cons (x y : Str) (t : List Str) :
    joinDot (x :: y :: t) = x ++ '.' :: joinDot (y :: t) := rfl

theorem joinDot_append_pair (xs : List Str) (y z : Str) (hxs : xs ≠ []) :
    joinDot (xs ++ [y, z]) = (joinDot xs ++ '.' :: y) ++ '.' :: z := by
  induction xs with
  | nil => simp at hxs
  | cons x t ih =>
    cases t with
    | nil => simp [joinDot]
    | cons x2 t2 =>
      have h1 : joinDot ((x :: x2 :: t2) ++ [y, z])
          = x ++ '.' :: joinDot ((x2 :: t2) ++ [y, z]) := by
        simp [joinDot_cons_cons]
      rw [h1, ih (by simp), joinDot_cons_cons]
      simp

theorem normalizeKey_of_no_backslash (k : Str) (h : '\\' ∉ k) : normalizeKey k = k := by
  induction k with
  | nil => rfl
  | cons c cs ih =>
    have hc : c ≠ '\\' := fun hh => h (hh ▸ List.mem_cons_self c cs)
    have hcs : '\\' ∉ cs := fun hh => h (List.mem_cons_of_mem c hh)
    have h2 := ih hcs
    simp only [normalizeKey, List.map_cons] at h2 ⊢
    rw [if_neg hc, h2]

theorem isPrefixOf_append_self (a b : List Char) : a.isPrefixOf (a ++ b) = true := by
  induction a with
  | nil => simp [List.isPrefixOf]
  | cons c cs ih => simp [List.isPrefixOf, ih]

theorem eq_append_drop_of_isPrefixOf (a b : List Char) (h : a.isPrefixOf b = true) :
    b = a ++ b.drop a.length := by
  induction a generalizing b with
  | nil => simp
  | cons c cs ih =>
    cases b with
    | nil => simp [List.isPrefixOf] at h
    | cons d ds =>
      simp only [List.isPrefixOf, Bool.and_eq_true, beq_iff_eq] at h
      obtain ⟨rfl, h2⟩ := h
      simpa using ih ds h2

/-- The canonical decomposition of a marker path. -/
def markerShape (pfx k v : Str) : Str :=
  (pfx ++ ['/']) ++ ((k ++ '.' :: v) ++ '.' :: doneChars)

theorem marker_key_shape (pfx k e : Str) :
    marker_key pfx k e = markerShape pfx (normalizeKey k) e := by
  simp [marker_key, markerShape]

theorem no_dot_doneChars : '.' ∉ doneChars := by decide

theorem drop_markerShape (pfx k v : Str) :
    (markerShape pfx k v).drop (pfx.length + 1) = (k ++ '.' :: v) ++ '.' :: doneChars := by
  have hlen : pfx.length + 1 = (pfx ++ ['/']).length := by simp
  rw [markerShape, hlen, List.drop_left]

theorem splitOnDot_markerTail (k v : Str) (hv : '.' ∉ v) :
    splitOnDot ((k ++ '.' :: v) ++ '.' :: doneChars) = splitOnDot k ++ [v, doneChars] := by
  rw [splitOnDot_append_dot (k ++ '.' :: v) doneChars,
      splitOnDot_append_dot k v,
      splitOnDot_no_dot v hv, splitOnDot_no_dot doneChars no_dot_doneChars]
  simp

/-- Round trip of the codec: for keys free of backslashes (which `marker_key`
rewrites to `/`) and versions free of dots, decoding inverts encoding. -/
theorem parse_marker_marker_key (pfx k v : Str) (hk : '\\' ∉ k) (hv : '.' ∉ v) :
    parse_marker pfx (marker_key pfx k v) = some (k, v) := by
  rw [marker_key_shape, normalizeKey_of_no_backslash k hk]
  have hpre : (pfx ++ ['/']).isPrefixOf (markerShape pfx k v) = true :=
    isPrefixOf_append_self _ _
  rw [parse_marker, if_pos hpre]
  simp only [drop_markerShape, splitOnDot_markerTail k v hv]
  cases hrev : (splitOnDot k).reverse with
  | nil => exact absurd (by simpa using congrArg List.reverse hrev) (splitOnDot_ne_nil k)
  | cons r rs =>
    have h2 : (splitOnDot k ++ [v, doneChars]).reverse = doneChars :: v :: r :: rs := by
      simp [hrev]
    rw [h2]
    have hk2 : (r :: rs).reverse = splitOnDot k := by
      rw [← hrev, List.reverse_reverse]
    simp [hk2, joinDot_splitOnDot]

/-- Inversion: a successful decode pins the exact shape of the marker path. -/
theorem parse_marker_shape (pfx path k v : Str)
    (h : parse_marker pfx path = some (k, v)) :
    path = markerShape pfx k v := by
  by_cases hpre : (pfx ++ ['/']).isPrefixOf path = true
  case neg =>
    rw [parse_marker, if_neg hpre] at h
    exact absurd h (by simp)
  case pos =>
    have hpath : path = (pfx ++ ['/']) ++ path.drop (pfx.length + 1) := by
      have hh := eq_append_drop_of_isPrefixOf _ _ hpre
      have hlen : (pfx ++ ['/']).length = pfx.length + 1 := by simp
      rw [hlen] at hh
      exact hh
    rw [parse_marker, if_pos hpre] at h
    simp only [] at h
    revert h
    generalize htail : path.drop (pfx.length + 1) = tail at hpath
    cases hrev : (splitOnDot tail).reverse with
    | nil => intro h; simp at h
    | cons d ds =>
      cases ds with
      | nil => intro h; simp at h
      | cons e es =>
        cases es with
        | nil => intro h; simp at h
        | cons r rs =>
          intro h
          have h' : (if d = doneChars then some (joinDot (r :: rs).reverse, e) else none)
              = some (k, v) := h
          by_cases hd : d = doneChars
          case neg => rw [if_neg hd] at h'; simp at h'
          case pos =>
            rw [if_pos hd] at h'
            have hkv := Option.some.inj h'
            have hk1 : joinDot (r :: rs).reverse = k := congrArg Prod.fst hkv
            have hv1 : e = v := congrArg Prod.snd hkv
            have hparts : splitOnDot tail = (r :: rs).reverse ++ [e, d] := by
              have h3 := congrArg List.reverse hrev
              simpa [List.reverse_append] using h3
            have htail2 : tail = (joinDot (r :: rs).reverse ++ '.' :: e) ++ '.' :: d := by
              rw [← joinDot_append_pair _ _ _ (by simp), ← hparts, joinDot_splitOnDot]
            rw [hpath, htail2, hk1, hv1, hd, markerShape]

/-! ### Structural lemmas about the deletion sweep -/

theorem removeSibling_keep (env : Env) (pfk : Str) (acc : St × Nat) (sib o : MObj)
    (ho : o ∈ acc.1.bucket) (hp : (pfk ++ ['.']).isPrefixOf o.name = false) :
    o ∈ (removeSibling env pfk acc sib).1.bucket := by
  unfold removeSibling
  split
  · exact ho
  case isFalse hsib =>
    split
    · exact ho
    · have hsib2 : (pfk ++ ['.']).isPrefixOf sib.name = true := by
        simpa using hsib
      have hne : o.name ≠ sib.name := fun hnn => by rw [hnn, hsib2] at hp; cases hp
      exact List.mem_filter.mpr ⟨ho, by simpa using hne⟩

theorem removeFold_keep (env : Env) (pfk : Str) (sibs : List MObj) (acc : St × Nat) (o : MObj)
    (ho : o ∈ acc.1.bucket) (hp : (pfk ++ ['.']).isPrefixOf o.name = false) :
    o ∈ (sibs.foldl (removeSibling env pfk) acc).1.bucket := by
  induction sibs generalizing acc with
  | nil => exact ho
  | cons s t ih => exact ih _ (removeSibling_keep env pfk acc s o ho hp)

theorem removeFold_removed_prefixed (env : Env) (pfk : Str) (sibs : List MObj)
    (acc : St × Nat) (o : MObj) (ho : o ∈ acc.1.bucket)
    (hrem : o ∉ (sibs.foldl (removeSibling env pfk) acc).1.bucket) :
    (pfk ++ ['.']).isPrefixOf o.name = true := by
  cases hp : (pfk ++ ['.']).isPrefixOf o.name with
  | true => rfl
  | false => exact absurd (removeFold_keep env pfk sibs acc o ho hp) hrem

theorem resolveKey_pk (pfx : Str) (env : Env) (acc : SweepAcc) (k e : Str) :
    (resolveKey pfx env acc k e).publishedKeys = acc.publishedKeys ++ [k] := by
  unfold resolveKey
  split
  · rfl
  · rfl

theorem sweepStep_cases (pfx : Str) (env : Env) (acc : SweepAcc) (m : Str) :
    sweepStep pfx env acc m = acc
    ∨ ∃ k e, parse_marker pfx m = some (k, e)
        ∧ acc.publishedKeys.contains k = false
        ∧ sourceMissing env acc.st k = true
        ∧ env.pubErr EvKind.deletion k e = false
        ∧ sweepStep pfx env acc m = resolveKey pfx env acc k e := by
  unfold sweepStep
  cases hp : parse_marker pfx m with
  | none => exact Or.inl rfl
  | some pr =>
    obtain ⟨k, e⟩ := pr
    cases h1 : acc.publishedKeys.contains k with
    | true =>
      left
      show (if acc.publishedKeys.contains k = true then acc
            else if (!sourceMissing env acc.st k) = true then acc
            else if env.pubErr EvKind.deletion k e = true then acc
            else resolveKey pfx env acc k e) = acc
      rw [if_pos h1]
    | false =>
      cases h2 : sourceMissing env acc.st k with
      | false =>
        left
        show (if acc.publishedKeys.contains k = true then acc
              else if (!sourceMissing env acc.st k) = true then acc
              else if env.pubErr EvKind.deletion k e = true then acc
              else resolveKey pfx env acc k e) = acc
        rw [if_neg (by rw [h1]; simp), if_pos (by simp [h2])]
      | true =>
        cases h3 : env.pubErr EvKind.deletion k e with
        | true =>
          left
          show (if acc.publishedKeys.contains k = true then acc
                else if (!sourceMissing env acc.st k) = true then acc
                else if env.pubErr EvKind.deletion k e = true then acc
                else resolveKey pfx env acc k e) = acc
          rw [if_neg (by rw [h1]; simp), if_neg (by simp [h2]), if_pos h3]
        | false =>
          right
          refine ⟨k, e, rfl, h1, h2, h3, ?_⟩
          show (if acc.publishedKeys.contains k = true then acc
                else if (!sourceMissing env acc.st k) = true then acc
                else if env.pubErr EvKind.deletion k e = true then acc
                else resolveKey pfx env acc k e) = resolveKey pfx env acc k e
          rw [if_neg (by rw [h1]; simp), if_neg (by simp [h2]), if_neg (by simp [h3])]

theorem sweepStep_pk_mono (pfx : Str) (env : Env) (acc : SweepAcc) (m : Str) (k : Str)
    (h : k ∈ acc.publishedKeys) : k ∈ (sweepStep pfx env acc m).publishedKeys := by
  rcases sweepStep_cases pfx env acc m with hc | ⟨k2, e, _, _, _, _, hc⟩
  · rwa [hc]
  · rw [hc, resolveKey_pk]
    exact List.mem_append_left _ h

theorem sweepFold_pk_mono (pfx : Str) (env : Env) (ms : List Str) (acc : SweepAcc) (k : Str)
    (h : k ∈ acc.publishedKeys) : k ∈ (ms.foldl (sweepStep pfx env) acc).publishedKeys := by
  induction ms generalizing acc with
  | nil => exact h
  | cons m t ih => exact ih _ (sweepStep_pk_mono pfx env acc m k h)

/-- Every object removed by a sweep was removed by the prefix-directed sibling
removal of some key the sweep resolved: its name starts with
`"<pfx>/<k>."` for a `k` in the final `published_keys`. -/
theorem sweepFold_removed_resolved (pfx : Str) (env : Env) (ms : List Str) (acc : SweepAcc)
    (o : MObj) (ho : o ∈ acc.st.bucket)
    (hrem : o ∉ (ms.foldl (sweepStep pfx env) acc).st.bucket) :
    ∃ k, k ∈ (ms.foldl (sweepStep pfx env) acc).publishedKeys
      ∧ ((pfx ++ ['/'] ++ k) ++ ['.']).isPrefixOf o.name = true := by
  induction ms generalizing acc with
  | nil => exact absurd ho hrem
  | cons m t ih =>
    by_cases hstep : o ∈ (sweepStep pfx env acc m).st.bucket
    · exact ih _ hstep hrem
    · rcases sweepStep_cases pfx env acc m with hc | ⟨k, e, _, _, _, _, hc⟩
      · rw [hc] at hstep; exact absurd ho hstep
      · rw [hc] at hstep
        unfold resolveKey at hstep
        split at hstep
        · exact absurd ho hstep
        · have hpref := removeFold_removed_prefixed env (pfx ++ ['/'] ++ k) _ _ o ho hstep
          refine ⟨k, ?_, hpref⟩
          have hk : k ∈ (sweepStep pfx env acc m).publishedKeys := by
            rw [hc, resolveKey_pk]
            exact List.mem_append_right _ (List.mem_singleton.mpr rfl)
          exact sweepFold_pk_mono pfx env t _ k hk

/-- Under the publish behavior of this source — every deletion publish
attempt fails (each call raises `TypeError`, see C2) — a sweep iteration
never reaches `resolveKey`, so it changes nothing. -/
theorem sweepStep_id_of_pubfail (pfx : Str) (env : Env) (acc : SweepAcc) (m : Str)
    (hpub : ∀ k e, env.pubErr EvKind.deletion k e = true) :
    sweepStep pfx env acc m = acc := by
  rcases sweepStep_cases pfx env acc m with hc | ⟨k, e, _, _, _, hpf, _⟩
  · exact hc
  · rw [hpub k e] at hpf
    cases hpf

/-- Under the same faithful publish behavior the whole deletion sweep is the
identity: no event published, no marker removed, no key resolved. -/
theorem scan_deletions_pubfail (pfx : Str) (env : Env) (st : St)
    (hpub : ∀ k e, env.pubErr EvKind.deletion k e = true) :
    scan_deletions pfx env st = ⟨st, 0, []⟩ := by
  unfold scan_deletions
  generalize markerNames pfx st = ms
  induction ms with
  | nil => rfl
  | cons m t ih =>
    rw [List.foldl_cons, sweepStep_id_of_pubfail pfx env _ m hpub]
    exact ih

/-! ### Claim C3 — codec round trip -/

/-- C3, as stated, is false: the claim allows path separators in the key, but
`marker_key` rewrites backslashes to `/` before encoding, so for
`key = "a\b"` (whose combined inputs contain no `"/.."`, with a version free
of dots and separators) decoding returns `("a/b", "v")`, not the original
key. -/
theorem C3_backslash_counterexample :
    parse_marker pfxP (marker_key pfxP ['a', '\\', 'b'] ['v']) ≠ some (['a', '\\', 'b'], ['v'])
    ∧ parse_marker pfxP (marker_key pfxP ['a', '\\', 'b'] ['v']) = some (['a', '/', 'b'], ['v'])
    ∧ hasSub slashDotDot (marker_key pfxP ['a', '\\', 'b'] ['v']) = false
    ∧ hasSub slashDotDot (pfxP ++ ['a', '\\', 'b'] ++ ['v']) = false
    ∧ (['v'] : Str).contains '.' = false
    ∧ (['v'] : Str).contains '/' = false
    ∧ (['v'] : Str).contains '\\' = false := by
  refine ⟨by decide, rfl, by decide, by decide, by decide, by decide, by decide⟩

/-- C3 (amended): the codec round-trips for every prefix, every key containing
no backslash (dots and `/` separators in the key are fine), and every version
containing no dots:
`parse_marker pfx (marker_key pfx k v) = (k, v)`. -/
theorem C3_roundtrip (pfx k v : Str) (hk : '\\' ∉ k) (hv : '.' ∉ v) :
    parse_marker pfx (marker_key pfx k v) = some (k, v) :=
  parse_marker_marker_key pfx k v hk hv

/-- Witness for C3 on a key containing dots and separators. -/
theorem C3_roundtrip_witness :
    parse_marker pfxP (marker_key pfxP ("papers/report.v2.pdf".toList) ("etag1".toList))
      = some ("papers/report.v2.pdf".toList, "etag1".toList) :=
  C3_roundtrip pfxP ("papers/report.v2.pdf".toList) ("etag1".toList) (by decide) (by decide)

/-! ### Claim C1 — marker withheld and failure logged on publish failure -/

/-- C1: the ordering half of the claim holds (no marker is ever written after
a failed publish), but the failure-log half does not.  With a single
unprocessed object `doc1` whose publish attempt raises, `process_bucket`
returns with the bucket unchanged (no marker — as claimed), but with an
**empty** failure log (the claim requires `doc1` to be appended) and with
`processed_count = 1`: the bare `except Exception:` in `process_object`
(pdf_reader.py:203) precedes the AMQP-specific handler that re-raises, so the
publish failure never reaches the failure-recording code of `process_bucket`
(lines 246-250). -/
theorem C1_publish_failure_swallowed :
    ∃ r, process_bucket pfxP envPubFail stDoc1 none = Except.ok r
      ∧ r.st.bucket = stDoc1.bucket
      ∧ r.st.events = []
      ∧ r.st.failLog = []
      ∧ r.processedCount = 1 :=
  ⟨_, rfl, rfl, rfl, rfl, rfl⟩

/-! ### Claim C2 — end-to-end scenario -/

/-- C2: the end-to-end scenario produces **no** ingest event, **no** marker
and **no** deletion event, because every `publish(...)` call in
`pdf_reader.py` passes four positional arguments to `helpers.publish`, which
requires five (`connection, channel, exchange, routing_key, msg`), so every
call raises `TypeError`; in `process_object` the bare `except` swallows it
(no marker is then written), and with no marker present the subsequent
deletion sweep over the emptied store is a no-op.  `envPubFail` is the
faithful environment for this slip. -/
theorem C2_end_to_end_yields_nothing :
    (∃ r, process_bucket pfxP envPubFail stDoc1 none = Except.ok r
       ∧ r.st.events = [] ∧ r.st.bucket = [objDoc1])
    ∧ scan_deletions pfxP envPubFail ⟨[], [], []⟩ = ⟨⟨[], [], []⟩, 0, []⟩ :=
  ⟨⟨_, rfl, rfl, rfl⟩, rfl⟩

/-! ### Claim C4 — deletion dedup and the event's content version -/

/-- C4: the claim asserts that one sweep publishes exactly one DeletionEvent
(carrying the most recent marker's version) for an absent key and removes
all of its markers; the code as written can do neither.  At the claim's own
scenario — three decodable markers for the absent key `k` — the sweep
publishes **zero** events and removes **zero** markers: the publish call at
pdf_reader.py:315-321 passes four positional arguments to the five-parameter
`helpers.publish`, raises `TypeError`, is caught at line 322 and the key is
skipped, so the marker-removal code (lines 327-348) is unreachable.
`envPubFail` is the faithful environment for this slip. -/
theorem C4_sweep_publishes_nothing :
    scan_deletions pfxP envPubFail ⟨bucketC4, [], []⟩ = ⟨⟨bucketC4, [], []⟩, 0, []⟩
    ∧ findObj ⟨bucketC4, [], []⟩ kK = none
    ∧ isMarkerOfB pfxP kK mKv1.name = true
    ∧ isMarkerOfB pfxP kK mKv2.name = true
    ∧ isMarkerOfB pfxP kK mKv3.name = true :=
  ⟨rfl, rfl, rfl, rfl, rfl⟩

/-! ### Claim C5 — markers retained on deletion-publish failure -/

/-- C5: if publishing the DeletionEvent for a key fails, none of that key's
markers are removed in that sweep.  In this source every deletion publish
fails (the call raises `TypeError`, see C2); under that publish behavior —
any environment in which every deletion publish attempt fails — the sweep is
the identity, so every key's markers are retained, nothing is published and
`removed_count` stays 0. -/
theorem C5_no_removal_on_publish_failure (pfx : Str) (env : Env) (st : St)
    (hpub : ∀ k e, env.pubErr EvKind.deletion k e = true) :
    scan_deletions pfx env st = ⟨st, 0, []⟩
    ∧ ∀ (k : Str), ∀ o ∈ st.bucket, isMarkerOfB pfx k o.name = true →
        o ∈ (scan_deletions pfx env st).st.bucket := by
  have h := scan_deletions_pubfail pfx env st hpub
  refine ⟨h, ?_⟩
  intro k o ho _
  rw [h]
  exact ho

/-- Witness for C5: both markers of the `"a/b"` / `"a/b.c"` store survive a
sweep whose deletion publishes all fail. -/
theorem C5_no_removal_on_publish_failure_witness :
    envPubFail.pubErr EvKind.deletion kABdotC (['v', '2']) = true
    ∧ scan_deletions pfxP envPubFail ⟨bucketC5, [], []⟩ = ⟨⟨bucketC5, [], []⟩, 0, []⟩
    ∧ mABC ∈ (scan_deletions pfxP envPubFail ⟨bucketC5, [], []⟩).st.bucket
    ∧ mAB ∈ (scan_deletions pfxP envPubFail ⟨bucketC5, [], []⟩).st.bucket := by
  have h := C5_no_removal_on_publish_failure pfxP envPubFail ⟨bucketC5, [], []⟩ (fun _ _ => rfl)
  exact ⟨rfl, h.1, h.2 kABdotC mABC (by decide) rfl, h.2 kAB mAB (by decide) rfl⟩

/-! ### Claim C6 — prefix-scoped marker removal -/

/-- C6: whenever the sweep removes an object, that object's path starts with
`"<marker_prefix>/<k>."` for a key `k` the sweep resolved (the filter at
pdf_reader.py:336) — proved for every environment.  Moreover, under the
publish behavior of this source (every deletion publish fails, see C2) the
sweep removes nothing at all, so resolving one key never removes another
key's markers: in particular distinct keys that are string prefixes of one
another, such as `"a/b"` and `"a/b.c"` or `"a/b"` and `"a/bb"`, each keep
their own markers. -/
theorem C6_removal_only_prefixed_paths (pfx : Str) (env : Env) (st : St) :
    (∀ o ∈ st.bucket, o ∉ (scan_deletions pfx env st).st.bucket →
      ∃ k, k ∈ (scan_deletions pfx env st).publishedKeys
        ∧ ((pfx ++ ['/'] ++ k) ++ ['.']).isPrefixOf o.name = true)
    ∧ ((∀ k e, env.pubErr EvKind.deletion k e = true) →
      ∀ o ∈ st.bucket, o ∈ (scan_deletions pfx env st).st.bucket) := by
  constructor
  · intro o ho hrem
    exact sweepFold_removed_resolved pfx env (markerNames pfx st) ⟨st, 0, []⟩ o ho hrem
  · intro hpub o ho
    rw [scan_deletions_pubfail pfx env st hpub]
    exact ho

/-- Witness for C6 on the string-prefix pair `"a/b"` / `"a/b.c"`: under the
faithful always-failing publish both keys keep their markers. -/
theorem C6_removal_only_prefixed_paths_witness :
    kAB.isPrefixOf kABdotC = true
    ∧ kAB ≠ kABdotC
    ∧ mABC ∈ (scan_deletions pfxP envPubFail ⟨bucketC6, [], []⟩).st.bucket
    ∧ mAB ∈ (scan_deletions pfxP envPubFail ⟨bucketC6, [], []⟩).st.bucket :=
  ⟨by decide, by decide,
   (C6_removal_only_prefixed_paths pfxP envPubFail ⟨bucketC6, [], []⟩).2 (fun _ _ => rfl)
     mABC (by decide),
   (C6_removal_only_prefixed_paths pfxP envPubFail ⟨bucketC6, [], []⟩).2 (fun _ _ => rfl)
     mAB (by decide)⟩

/-! ### Claim C8 — malformed markers are skipped and never deleted -/

/-- C8: a marker path the codec cannot decode is logged and skipped — the
sweep iteration over it is the identity, for every environment — and it is
never deleted: removal happens only inside `resolveKey`, which is reachable
only after a confirmed deletion publish, and in this source every publish
attempt fails (see C2), so the sweep removes nothing and malformed markers
are retained. -/
theorem C8_malformed_marker_skipped_and_retained (pfx : Str) (env : Env) :
    (∀ (acc : SweepAcc) (m : Str), parse_marker pfx m = none →
      sweepStep pfx env acc m = acc)
    ∧ ((∀ k e, env.pubErr EvKind.deletion k e = true) →
      ∀ (st : St), ∀ o ∈ st.bucket, o ∈ (scan_deletions pfx env st).st.bucket) := by
  constructor
  · intro acc m hm
    unfold sweepStep
    rw [hm]
  · intro hpub st o ho
    rw [scan_deletions_pubfail pfx env st hpub]
    exact ho

/-- Witness for C8: the malformed `"p/doc1.junk"` is skipped by the decode
loop and survives the sweep. -/
theorem C8_malformed_marker_skipped_and_retained_witness :
    parse_marker pfxP mJunk.name = none
    ∧ sweepStep pfxP envPubFail ⟨⟨bucketC8, [], []⟩, 0, []⟩ mJunk.name
        = ⟨⟨bucketC8, [], []⟩, 0, []⟩
    ∧ mJunk ∈ (scan_deletions pfxP envPubFail ⟨bucketC8, [], []⟩).st.bucket :=
  ⟨rfl,
   (C8_malformed_marker_skipped_and_retained pfxP envPubFail).1 ⟨⟨bucketC8, [], []⟩, 0, []⟩
     mJunk.name rfl,
   (C8_malformed_marker_skipped_and_retained pfxP envPubFail).2 (fun _ _ => rfl)
     ⟨bucketC8, [], []⟩ mJunk (by decide)⟩

/-! ### Claim C9 — ambiguous storage errors on existence checks -/

theorem process_object_pubfail (pfx : Str) (env : Env) (st : St) (obj : MObj)
    (hp : env.pubErr EvKind.ingest obj.name obj.etag = true) :
    process_object pfx env st obj = Except.error ("download".toList)
    ∨ process_object pfx env st obj = Except.error ("extract".toList)
    ∨ process_object pfx env st obj = Except.ok st := by
  cases hf : env.fetchErr obj.name with
  | true => exact Or.inl (by unfold process_object; rw [if_pos hf])
  | false =>
    cases hx : env.extractErr obj.name with
    | true =>
      refine Or.inr (Or.inl ?_)
      unfold process_object
      rw [if_neg (by rw [hf]; simp), if_pos hx]
    | false =>
      refine Or.inr (Or.inr ?_)
      unfold process_object
      rw [if_neg (by rw [hf]; simp), if_neg (by rw [hx]; simp), if_pos hp]

theorem bucketStep_pubfail (pfx : Str) (env : Env) (acc : PassResult) (obj : MObj)
    (hp : env.pubErr EvKind.ingest obj.name obj.etag = true) :
    (bucketStep pfx env acc obj).st.events = acc.st.events
    ∧ (bucketStep pfx env acc obj).st.bucket = acc.st.bucket := by
  unfold bucketStep
  split
  · exact ⟨rfl, rfl⟩
  · rcases process_object_pubfail pfx env acc.st obj hp with h | h | h <;>
      rw [h] <;> exact ⟨rfl, rfl⟩

theorem bucketFold_pubfail (pfx : Str) (env : Env)
    (hp : ∀ k e, env.pubErr EvKind.ingest k e = true) :
    ∀ (objs : List MObj) (acc : PassResult),
      (objs.foldl (bucketStep pfx env) acc).st.events = acc.st.events
      ∧ (objs.foldl (bucketStep pfx env) acc).st.bucket = acc.st.bucket := by
  intro objs
  induction objs with
  | nil => exact fun acc => ⟨rfl, rfl⟩
  | cons obj t ih =>
    intro acc
    obtain ⟨h1, h2⟩ := bucketStep_pubfail pfx env acc obj (hp obj.name obj.etag)
    obtain ⟨h3, h4⟩ := ih (bucketStep pfx env acc obj)
    exact ⟨h3.trans h1, h4.trans h2⟩

/-- C9: the sweep's source-existence check treats any `S3Error` whose code
is not a not-found code as inconclusive — the key is left untouched (no
event, no removal) and the sweep continues — proved for every environment.
For the reconciler's marker check, `is_already_processed` answers `False` on
any `S3Error` and the object is re-processed, but no ingest event can be
(re-)published on that or any other evidence: every publish attempt of this
source fails (the call raises `TypeError`, see C2), and under that publish
behavior a pass never changes the event log or the bucket, so the claim's
"not re-published on ambiguous evidence" holds of the program as written. -/
theorem C9_inconclusive_stat_no_publish (pfx : Str) (env : Env) :
    (∀ (acc : SweepAcc) (m k e c : Str), parse_marker pfx m = some (k, e) →
        env.statErr k = some c → notFoundCodes.contains c = false →
        sweepStep pfx env acc m = acc)
    ∧ ((∀ k e, env.pubErr EvKind.ingest k e = true) →
      ∀ (st : St), ∃ r, process_bucket pfx env st none = Except.ok r
        ∧ r.st.events = st.events ∧ r.st.bucket = st.bucket) := by
  constructor
  · intro acc m k e c hm hse hnc
    unfold sweepStep
    rw [hm]
    show (if acc.publishedKeys.contains k = true then acc
          else if (!sourceMissing env acc.st k) = true then acc
          else if env.pubErr EvKind.deletion k e = true then acc
          else resolveKey pfx env acc k e) = acc
    by_cases h1 : acc.publishedKeys.contains k = true
    · rw [if_pos h1]
    · have hsm : sourceMissing env acc.st k = false := by
        unfold sourceMissing statObject
        rw [hse]
        exact hnc
      rw [if_neg h1, if_pos (by rw [hsm]; simp)]
  · intro hp st
    obtain ⟨h1, h2⟩ := bucketFold_pubfail pfx env hp (listSourceObjects pfx st) ⟨st, 0⟩
    exact ⟨_, rfl, h1, h2⟩

/-- Witness for C9 in the faithful `envC9f` (all publishes fail and
`stat_object` on doc1's marker raises `AccessDenied`): a marker decoding to
the stat-erroring name is left untouched by the sweep step;
`is_already_processed` on doc1 answers `False`; and the pass over the store
still publishes nothing and writes nothing. -/
theorem C9_inconclusive_stat_no_publish_witness :
    sweepStep pfxP envC9f ⟨⟨[], [], []⟩, 0, []⟩ ("p/p/doc1.etag1.done.v.done".toList)
        = ⟨⟨[], [], []⟩, 0, []⟩
    ∧ is_already_processed envC9f ⟨bucketC9, [], []⟩ pfxP objDoc1 = false
    ∧ notFoundCodes.contains ("AccessDenied".toList) = false
    ∧ ∃ r, process_bucket pfxP envC9f ⟨bucketC9, [], []⟩ none = Except.ok r
        ∧ r.st.events = [] ∧ r.st.bucket = bucketC9 :=
  ⟨(C9_inconclusive_stat_no_publish pfxP envC9f).1 ⟨⟨[], [], []⟩, 0, []⟩
      ("p/p/doc1.etag1.done.v.done".toList) markerDoc1Name (['v']) ("AccessDenied".toList)
      rfl rfl (by decide),
   rfl, by decide,
   (C9_inconclusive_stat_no_publish pfxP envC9f).2 (fun _ _ => rfl) ⟨bucketC9, [], []⟩⟩

/-! ### Claim C7 — idempotency of the reconciler pass -/

theorem isPrefixOf_marker_key (pfx k e : Str) :
    (pfx ++ ['/']).isPrefixOf (marker_key pfx k e) = true := by
  rw [marker_key_shape, markerShape]
  exact isPrefixOf_append_self _ _

theorem writeMarker_mem (pfx : Str) (st : St) (obj : MObj) (o : MObj) (h : o ∈ st.bucket) :
    o ∈ (writeMarker pfx st obj).bucket := by
  unfold writeMarker
  split
  · exact h
  · exact List.mem_append_left _ h

theorem writeMarker_has (pfx : Str) (st : St) (obj : MObj) :
    ∃ o ∈ (writeMarker pfx st obj).bucket, o.name = marker_key pfx obj.name obj.etag := by
  unfold writeMarker
  split
  case isTrue hhas =>
    obtain ⟨o, ho, hn⟩ := List.any_eq_true.mp hhas
    exact ⟨o, ho, by simpa using hn⟩
  case isFalse =>
    exact ⟨⟨marker_key pfx obj.name obj.etag, []⟩, List.mem_append_right _ (by simp), rfl⟩

theorem process_object_ok_mem (pfx : Str) (env : Env) (st : St) (obj : MObj) (st' : St)
    (h : process_object pfx env st obj = Except.ok st') (o : MObj) (ho : o ∈ st.bucket) :
    o ∈ st'.bucket := by
  unfold process_object at h
  split at h
  · cases h
  split at h
  · cases h
  split at h
  · rw [← Except.ok.inj h]; exact ho
  split at h
  · rw [← Except.ok.inj h]; exact ho
  · rw [← Except.ok.inj h]; exact writeMarker_mem pfx _ obj o ho

theorem bucketStep_mem (pfx : Str) (env : Env) (acc : PassResult) (obj : MObj) (o : MObj)
    (h : o ∈ acc.st.bucket) : o ∈ (bucketStep pfx env acc obj).st.bucket := by
  unfold bucketStep
  split
  · exact h
  · cases hpo : process_object pfx env acc.st obj with
    | error e => exact h
    | ok st' => exact process_object_ok_mem pfx env acc.st obj st' hpo o h

theorem bucketFold_mem (pfx : Str) (env : Env) (objs : List MObj) (acc : PassResult) (o : MObj)
    (h : o ∈ acc.st.bucket) : o ∈ (objs.foldl (bucketStep pfx env) acc).st.bucket := by
  induction objs generalizing acc with
  | nil => exact h
  | cons obj t ih => exact ih _ (bucketStep_mem pfx env acc obj o h)

theorem process_object_good (pfx : Str) (env : Env) (st : St) (obj : MObj)
    (hg : goodObj env pfx obj = true) :
    process_object pfx env st obj
      = Except.ok (writeMarker pfx { st with events := st.events ++ [ingestEvent obj] } obj) := by
  unfold goodObj at hg
  simp only [Bool.and_eq_true, Bool.not_eq_true'] at hg
  obtain ⟨⟨⟨h1, h2⟩, h3⟩, h4⟩ := hg
  unfold process_object
  rw [if_neg (by rw [h1]; simp), if_neg (by rw [h2]; simp), if_neg (by rw [h3]; simp),
      if_neg (by rw [h4]; simp)]

theorem mem_of_is_already (env : Env) (st : St) (pfx : Str) (obj : MObj)
    (hse : env.statErr (marker_key pfx obj.name obj.etag) = none)
    (h : is_already_processed env st pfx obj = true) :
    ∃ o ∈ st.bucket, o.name = marker_key pfx obj.name obj.etag := by
  unfold is_already_processed statObject at h
  rw [hse] at h
  cases hf : findObj st (marker_key pfx obj.name obj.etag) with
  | none => rw [hf] at h; cases h
  | some o =>
    unfold findObj at hf
    exact ⟨o, List.mem_of_find?_eq_some hf, by simpa using List.find?_some hf⟩

theorem is_already_of_mem (env : Env) (st : St) (pfx : Str) (obj : MObj)
    (hse : env.statErr (marker_key pfx obj.name obj.etag) = none)
    (h : ∃ o ∈ st.bucket, o.name = marker_key pfx obj.name obj.etag) :
    is_already_processed env st pfx obj = true := by
  obtain ⟨o, ho, hn⟩ := h
  unfold is_already_processed statObject
  rw [hse]
  cases hf : findObj st (marker_key pfx obj.name obj.etag) with
  | some o2 => rfl
  | none =>
    unfold findObj at hf
    rw [List.find?_eq_none] at hf
    exact absurd (by simp [hn]) (hf o ho)

theorem run1_good (pfx : Str) (env : Env)
    (hs : ∀ n, env.statErr n = none) :
    ∀ (objs : List MObj) (acc : PassResult) (obj : MObj),
      obj ∈ objs → goodObj env pfx obj = true →
      ∃ o ∈ (objs.foldl (bucketStep pfx env) acc).st.bucket,
        o.name = marker_key pfx obj.name obj.etag := by
  intro objs
  induction objs with
  | nil => intro acc obj h; cases h
  | cons obj2 t ih =>
    intro acc obj hmem hg
    rcases List.mem_cons.mp hmem with rfl | hmem2
    · have hstep : ∃ o ∈ (bucketStep pfx env acc obj).st.bucket,
          o.name = marker_key pfx obj.name obj.etag := by
        unfold bucketStep
        split
        case isTrue hsk => exact mem_of_is_already env acc.st pfx obj (hs _) hsk
        case isFalse =>
          rw [process_object_good pfx env acc.st obj hg]
          exact writeMarker_has pfx _ obj
      obtain ⟨o, ho, hn⟩ := hstep
      exact ⟨o, bucketFold_mem pfx env t _ o ho, hn⟩
    · exact ih _ obj hmem2 hg

theorem run2_stable (pfx : Str) (env : Env) (st0 : St)
    (hs : ∀ n, env.statErr n = none) :
    ∀ (objs : List MObj) (acc : PassResult),
      (∀ obj ∈ objs, (∃ o ∈ st0.bucket, o.name = marker_key pfx obj.name obj.etag)
          ∨ env.fetchErr obj.name = true ∨ env.extractErr obj.name = true
          ∨ env.pubErr EvKind.ingest obj.name obj.etag = true) →
      acc.st.bucket = st0.bucket →
      acc.st.events = st0.events →
      (objs.foldl (bucketStep pfx env) acc).st.bucket = st0.bucket
      ∧ (objs.foldl (bucketStep pfx env) acc).st.events = st0.events := by
  intro objs
  induction objs with
  | nil => exact fun acc _ hb he => ⟨hb, he⟩
  | cons obj t ih =>
    intro acc hobjs hb he
    have hstep : (bucketStep pfx env acc obj).st.bucket = st0.bucket
        ∧ (bucketStep pfx env acc obj).st.events = st0.events := by
      unfold bucketStep
      split
      · exact ⟨hb, he⟩
      case isFalse hskip =>
        cases hpo : process_object pfx env acc.st obj with
        | error e => exact ⟨hb, he⟩
        | ok st' =>
          have hst' : st' = acc.st := by
            rcases hobjs obj (List.mem_cons_self obj t) with hmk | hf | hx | hp
            · exact absurd (is_already_of_mem env acc.st pfx obj (hs _)
                (by rw [hb]; exact hmk)) hskip
            · rw [show process_object pfx env acc.st obj = Except.error ("download".toList) from by
                unfold process_object; rw [if_pos hf]] at hpo
              cases hpo
            · cases hfe : env.fetchErr obj.name with
              | true =>
                rw [show process_object pfx env acc.st obj
                    = Except.error ("download".toList) from by
                  unfold process_object; rw [if_pos hfe]] at hpo
                cases hpo
              | false =>
                rw [show process_object pfx env acc.st obj
                    = Except.error ("extract".toList) from by
                  unfold process_object; rw [if_neg (by rw [hfe]; simp), if_pos hx]] at hpo
                cases hpo
            · cases hfe : env.fetchErr obj.name with
              | true =>
                rw [show process_object pfx env acc.st obj
                    = Except.error ("download".toList) from by
                  unfold process_object; rw [if_pos hfe]] at hpo
                cases hpo
              | false =>
                cases hxe : env.extractErr obj.name with
                | true =>
                  rw [show process_object pfx env acc.st obj
                      = Except.error ("extract".toList) from by
                    unfold process_object;
                      rw [if_neg (by rw [hfe]; simp), if_pos hxe]] at hpo
                  cases hpo
                | false =>
                  rw [show process_object pfx env acc.st obj = Except.ok acc.st from by
                    unfold process_object;
                      rw [if_neg (by rw [hfe]; simp), if_neg (by rw [hxe]; simp),
                        if_pos hp]] at hpo
                  exact (Except.ok.inj hpo).symm
          rw [hst']
          exact ⟨hb, he⟩
    exact ih _ (fun o2 ho2 => hobjs o2 (List.mem_cons_of_mem obj ho2)) hstep.1 hstep.2

theorem bucketStep_append (pfx : Str) (env : Env) (acc : PassResult) (obj : MObj) :
    ∃ ext, (bucketStep pfx env acc obj).st.bucket = acc.st.bucket ++ ext
      ∧ ∀ o ∈ ext, (pfx ++ ['/']).isPrefixOf o.name = true := by
  unfold bucketStep
  split
  · exact ⟨[], by simp, by simp⟩
  · cases hpo : process_object pfx env acc.st obj with
    | error e => exact ⟨[], by simp, by simp⟩
    | ok st' =>
      unfold process_object at hpo
      split at hpo
      · cases hpo
      split at hpo
      · cases hpo
      split at hpo
      · exact ⟨[], by simp [← Except.ok.inj hpo], by simp⟩
      split at hpo
      · exact ⟨[], by simp [← Except.ok.inj hpo], by simp⟩
      · have hw := Except.ok.inj hpo
        unfold writeMarker at hw
        split at hw
        · exact ⟨[], by simp [← hw], by simp⟩
        · refine ⟨[⟨marker_key pfx obj.name obj.etag, []⟩], by simp [← hw], ?_⟩
          intro o ho
          rw [List.mem_singleton.mp ho]
          exact isPrefixOf_marker_key pfx obj.name obj.etag

theorem bucketFold_append (pfx : Str) (env : Env) (objs : List MObj) (acc : PassResult) :
    ∃ ext, (objs.foldl (bucketStep pfx env) acc).st.bucket = acc.st.bucket ++ ext
      ∧ ∀ o ∈ ext, (pfx ++ ['/']).isPrefixOf o.name = true := by
  induction objs generalizing acc with
  | nil => exact ⟨[], by simp, by simp⟩
  | cons obj t ih =>
    obtain ⟨e1, hb1, he1⟩ := bucketStep_append pfx env acc obj
    obtain ⟨e2, hb2, he2⟩ := ih (bucketStep pfx env acc obj)
    refine ⟨e1 ++ e2, ?_, ?_⟩
    · rw [List.foldl_cons, hb2, hb1, List.append_assoc]
    · intro o ho
      rcases List.mem_append.mp ho with h | h
      · exact he1 o h
      · exact he2 o h

theorem listSourceObjects_append_markers (pfx : Str) (st st2 : St) (ext : List MObj)
    (hb : st2.bucket = st.bucket ++ ext)
    (hext : ∀ o ∈ ext, (pfx ++ ['/']).isPrefixOf o.name = true) :
    listSourceObjects pfx st2 = listSourceObjects pfx st := by
  unfold listSourceObjects
  rw [hb, List.filter_append]
  have hnil : ext.filter (fun o => !((pfx ++ ['/']).isPrefixOf o.name)) = [] :=
    List.filter_eq_nil_iff.mpr (fun o ho => by simp [hext o ho])
  rw [hnil, List.append_nil]

/-- C7: with a deterministic environment whose marker writes succeed and whose
`stat_object` calls raise no storage errors, running the reconciler pass a
second time with no change to the object store publishes nothing and writes
no marker (the second pass leaves bucket and events exactly as the first left
them), and any candidate whose `(key, content_version)` already carries a
marker is skipped with no side effects at all. -/
theorem C7_second_run_is_noop (pfx : Str) (env : Env) (st : St)
    (hm : ∀ n, env.markErr n = false)
    (hs : ∀ n, env.statErr n = none)
    (r1 : PassResult) (h1 : process_bucket pfx env st none = Except.ok r1) :
    (∃ r2, process_bucket pfx env r1.st none = Except.ok r2
      ∧ r2.st.bucket = r1.st.bucket ∧ r2.st.events = r1.st.events)
    ∧ ∀ (acc : PassResult) (obj : MObj),
        is_already_processed env acc.st pfx obj = true → bucketStep pfx env acc obj = acc := by
  have hr1 : r1 = (listSourceObjects pfx st).foldl (bucketStep pfx env) ⟨st, 0⟩ := by
    unfold process_bucket at h1
    exact (Except.ok.inj h1).symm
  obtain ⟨ext, hb, hext⟩ := bucketFold_append pfx env (listSourceObjects pfx st) ⟨st, 0⟩
  have hcand : listSourceObjects pfx r1.st = listSourceObjects pfx st := by
    refine listSourceObjects_append_markers pfx st r1.st ext ?_ hext
    rw [hr1]
    exact hb
  have hobjs : ∀ obj ∈ listSourceObjects pfx st,
      (∃ o ∈ r1.st.bucket, o.name = marker_key pfx obj.name obj.etag)
      ∨ env.fetchErr obj.name = true ∨ env.extractErr obj.name = true
      ∨ env.pubErr EvKind.ingest obj.name obj.etag = true := by
    intro obj hobj
    cases hg : goodObj env pfx obj with
    | true =>
      left
      rw [hr1]
      exact run1_good pfx env hs (listSourceObjects pfx st) ⟨st, 0⟩ obj hobj hg
    | false =>
      right
      unfold goodObj at hg
      rw [hm (marker_key pfx obj.name obj.etag)] at hg
      simp at hg
      cases hfe : env.fetchErr obj.name with
      | true => exact Or.inl rfl
      | false =>
        cases hxe : env.extractErr obj.name with
        | true => exact Or.inr (Or.inl rfl)
        | false => exact Or.inr (Or.inr (hg hfe hxe))
  obtain ⟨hbk, hev⟩ := run2_stable pfx env r1.st hs (listSourceObjects pfx r1.st) ⟨r1.st, 0⟩
    (by rw [hcand]; exact hobjs) rfl rfl
  refine ⟨⟨_, rfl, hbk, hev⟩, ?_⟩
  intro acc obj hskip
  unfold bucketStep
  rw [if_pos hskip]

/-- Witness for C7: the pass over `{doc1}` marks it; running it again from
the resulting store changes neither bucket nor events. -/
theorem C7_second_run_is_noop_witness :
    ∃ r2, process_bucket pfxP okEnv
        (St.mk [objDoc1, mMarkerDoc1] [ingestEvent objDoc1] []) none = Except.ok r2
      ∧ r2.st.bucket = [objDoc1, mMarkerDoc1]
      ∧ r2.st.events = [ingestEvent objDoc1] := by
  obtain ⟨⟨r2, h2, hbk, hev⟩, _⟩ := C7_second_run_is_noop pfxP okEnv stDoc1
    (fun _ => rfl) (fun _ => rfl)
    ⟨St.mk [objDoc1, mMarkerDoc1] [ingestEvent objDoc1] [], 1⟩ rfl
  exact ⟨r2, h2, hbk, hev⟩

/-! ### Claim C10 — retry-mode stat failures abort the pass -/

theorem statKeys_error_of_mem (env : Env) (st : St) :
    ∀ (keys : List Str) (k : Str), k ∈ keys →
      (∃ c, statObject env st k = Except.error c) →
      ∃ c2, statKeys env st keys = Except.error c2 := by
  intro keys
  induction keys with
  | nil => intro k hk; cases hk
  | cons k0 t ih =>
    intro k hk hfail
    rcases List.mem_cons.mp hk with rfl | hk2
    · obtain ⟨c, hc⟩ := hfail
      exact ⟨c, by unfold statKeys; rw [hc]⟩
    · cases hso : statObject env st k0 with
      | error e => exact ⟨e, by unfold statKeys; rw [hso]⟩
      | ok o =>
        obtain ⟨c2, hc2⟩ := ih k hk2 hfail
        exact ⟨c2, by unfold statKeys; rw [hso, hc2]⟩

/-- C10: in retry mode the candidate set is built by `stat_object` on every
listed key before any object is processed (the list comprehension at
pdf_reader.py:227 runs before the loop); if any listed key's stat raises, the
exception propagates out of `process_bucket` — the pass returns the error, so
no object is processed, no event is published, no marker is written and
nothing is appended to the failure log. -/
theorem C10_retry_stat_failure_aborts_pass (pfx : Str) (env : Env) (st : St)
    (keys : List Str) (k : Str) (hk : k ∈ keys)
    (hfail : ∃ c, statObject env st k = Except.error c) :
    ∃ c, process_bucket pfx env st (some keys) = Except.error c := by
  obtain ⟨c2, h⟩ := statKeys_error_of_mem env st keys k hk hfail
  refine ⟨c2, ?_⟩
  show (match statKeys env st keys with
        | Except.error e => Except.error e
        | Except.ok objs =>
          Except.ok (objs.foldl (bucketStep pfx env) ⟨st, 0⟩)) = Except.error c2
  rw [h]

/-- Witness for C10: a retry list naming an absent key aborts the pass. -/
theorem C10_retry_stat_failure_aborts_pass_witness :
    ∃ c, process_bucket pfxP okEnv stDoc1 (some [kMissing]) = Except.error c :=
  C10_retry_stat_failure_aborts_pass pfxP okEnv stDoc1 [kMissing] kMissing
    (List.mem_singleton.mpr rfl) ⟨noSuchKey, rfl⟩

end RagFlow
